import Mathlib

/-!
Verification development for the btzen BLE library (bus.py, cm.py, serial.py).

The Python fragments relevant to the checked properties are shallowly
embedded below.  Object paths, interface names, property names and MAC
addresses are abstracted as natural-number atoms; machine byte values are
natural numbers; fallible Python code is embedded as `Except`-returning
functions; asynchronous code that can suspend is embedded as functions over
an explicit script of the values the suspension points would receive.
-/

/-- Python exception classes observable in the embedded fragments. -/
inductive PyExc
  | keyError
  | valueError
  | configurationError
  | assertionError
  deriving DecidableEq

/-! ## serial.py -/

/-- Exact integer ceiling division `⌈a / b⌉` for `b > 0`:
`(a + b - 1) / b` with Euclidean division. -/
def ceilDiv (a b : Int) : Int :=
  (a + b - 1) / b

/-- Embedding of `credits_for(data, n)` from serial.py:
`min(255, math.ceil((n - len(data)) / 20))`.  Only the length of `data`
is inspected; real division followed by `math.ceil` is embedded as exact
integer ceiling division. -/
def credits_for (data : List Nat) (n : Nat) : Int :=
  min 255 (ceilDiv ((n : Int) - (data.length : Int)) 20)

/-- The spec's formula for `credits_for`, written with the mathematical
ceiling of the rational quotient: `min(255, ⌈(n − len(data)) / 20⌉)`. -/
def credits_for_spec (data : List Nat) (n : Nat) : Int :=
  min 255 ⌈(((n : Int) - (data.length : Int) : Int) : ℚ) / 20⌉

/-- The serial engine's credit state: `rx_credits` is `Serial._rx_credits`
(credits currently granted to the peer for inbound data) and `granted` is
the running total of all credits ever granted via `Serial._add_rx_credits`
(each grant adds to both). -/
structure SerialState where
  rx_credits : Int
  granted : Int
  deriving DecidableEq

/-- Embedding of `Serial._add_rx_credits(n)`: writes the grant to the
RX-credit characteristic and increments the ledger by the grant size. -/
def add_rx_credits (s : SerialState) (k : Int) : SerialState :=
  { rx_credits := s.rx_credits + k, granted := s.granted + k }

/-- Entry half of `Serial._rx_credits_mgr(data, n)`: before waiting for an
inbound frame, if the ledger is below 1, grant `credits_for(data, n)` new
credits. -/
def rx_credits_mgr_enter (s : SerialState) (data : List Nat) (n : Nat) : SerialState :=
  if s.rx_credits < 1 then add_rx_credits s (credits_for data n) else s

/-- One full pass through `Serial._rx_credits_mgr`: the entry grant check,
then — after the frame in the managed block has been received — the
`finally` clause's decrement of the ledger by exactly 1. -/
def rx_credits_mgr_step (s : SerialState) (data : List Nat) (n : Nat) : SerialState :=
  let s1 := rx_credits_mgr_enter s data n
  { s1 with rx_credits := s1.rx_credits - 1 }

/-- Result of one `Serial.read(n)` call.  `ok` is a normal return (the
final `assert len(data) == n` passed); `assertFail` is the run in which the
accumulated data overshot `n` and that assert raised; `waiting` is a run
suspended forever on `tx.get()` because the script of inbound frames was
exhausted before `n` bytes arrived. -/
inductive ReadResult
  | ok (data : List Nat) (s : SerialState) (rest : List (List Nat))
  | assertFail (data : List Nat) (s : SerialState)
  | waiting (data : List Nat) (s : SerialState)
  deriving DecidableEq

/-- Embedding of the `while len(data) < n` loop of `Serial.read`: each
iteration enters `_rx_credits_mgr` (granting first when the ledger is below
1), receives the next inbound frame from the script, appends it, and — as
the context manager's `finally` — decrements the ledger by exactly 1. -/
def readLoop (n : Nat) : List (List Nat) → List Nat → SerialState → ReadResult
  | [], data, s =>
      if data.length < n then ReadResult.waiting data s
      else if data.length = n then ReadResult.ok data s []
      else ReadResult.assertFail data s
  | f :: fs, data, s =>
      if data.length < n then
        readLoop n fs (data ++ f) (rx_credits_mgr_step s data n)
      else if data.length = n then ReadResult.ok data s (f :: fs)
      else ReadResult.assertFail data s

/-- Embedding of `Serial.read(n)`: run the accumulation loop starting from
an empty buffer against the script `frames` of inbound data frames. -/
def Serial.read (n : Nat) (frames : List (List Nat)) (s : SerialState) : ReadResult :=
  readLoop n frames [] s

/-- The ledger value after each loop iteration of `Serial.read(n)` (after
the context manager's decrement), in order: the full history of the
inbound-credit ledger during the call. -/
def readLedgers (n : Nat) : List (List Nat) → List Nat → SerialState → List Int
  | [], _, _ => []
  | f :: fs, data, s =>
      if data.length < n then
        (rx_credits_mgr_step s data n).rx_credits ::
          readLedgers n fs (data ++ f) (rx_credits_mgr_step s data n)
      else []

/-! ## bus.py: Bus._connect and Bus._connect_and_resolve -/

/-- Failure classes of the native `_btzen.bt_connect` call:
an "already connected"-class daemon error, or any other failure
(abstracted by a code). -/
inductive ConnectErr
  | alreadyConnected
  | other (code : Nat)
  deriving DecidableEq

/-- Observable effects of `Bus._connect` against the native binding. -/
inductive ConnEv
  | btConnectCall
  | readConnected
  deriving DecidableEq

/-- Embedding of `Bus._connect(path)`: issue the native connect call; on
any exception, synchronously read the `Connected` property and re-raise
the original exception only when it is false; on success, read `Connected`
for logging.  Parameters: `result` is what the native connect did
(`none` = success), `connectedProp` is the value the `Connected` property
read returns.  Returns the effect trace and the call's outcome. -/
def Bus._connect (result : Option ConnectErr) (connectedProp : Bool) :
    List ConnEv × Except ConnectErr Unit :=
  match result with
  | none => ([ConnEv.btConnectCall, ConnEv.readConnected], Except.ok ())
  | some e =>
      if connectedProp then ([ConnEv.btConnectCall, ConnEv.readConnected], Except.ok ())
      else ([ConnEv.btConnectCall, ConnEv.readConnected], Except.error e)

/-- Observable effects of `Bus._connect_and_resolve` against the native
binding: the nested connect call, the synchronous `_property_bool` read of
`ServicesResolved`, and the monitor registration / awaited change / monitor
teardown performed by the `_dev_property` coroutine body. -/
inductive BusEv
  | btConnectCall
  | propertyBoolRead
  | monitorStart
  | monitorGet
  | monitorStop
  deriving DecidableEq

/-- Embedding of `Bus._connect_and_resolve(path)` as its effect trace.
Python semantics: `task_sr = self._dev_property(path, 'ServicesResolved')`
only creates a coroutine object and runs none of its body; the body — which
begins with the monitor registration `_dev_property_start` — runs at the
first `await task_sr`, which the code reaches only when the synchronous
`_property_bool` check returned false.  When the check returned true the
coroutine is closed without ever having started, so the monitor is never
registered.  `resolved` is the value the synchronous check returns. -/
def Bus._connect_and_resolve (resolved : Bool) : List BusEv :=
  [BusEv.btConnectCall, BusEv.propertyBoolRead] ++
    (if resolved then []
     else [BusEv.monitorStart, BusEv.monitorGet, BusEv.monitorStop])

/-- Does a `monitorStart` occur strictly before the first synchronous
`propertyBoolRead` of the trace?  This is the ordering the spec requires. -/
def monitorStartBeforeRead : List BusEv → Bool
  | [] => false
  | BusEv.monitorStart :: _ => true
  | BusEv.propertyBoolRead :: _ => false
  | _ :: rest => monitorStartBeforeRead rest

/-! ## bus.py: Notifications -/

/-- Abstraction of the native `PropertyNotification` object returned by
`bt_property_monitor_start`: the set of registered property names, the
per-name pending delivery queues (only their lengths are observable through
`size`), and whether its native `stop` has been called. -/
structure PropertyMonitor where
  registered : List Nat
  pending : List (Nat × Nat)
  stopped : Bool
  deriving DecidableEq

/-- A fresh monitor as created by `_btzen.bt_property_monitor_start`. -/
def bt_property_monitor_start : PropertyMonitor :=
  { registered := [], pending := [], stopped := false }

/-- `data.size(name)` on the native monitor: the number of values queued
for `name`. -/
def PropertyMonitor.size (m : PropertyMonitor) (name : Nat) : Nat :=
  match m.pending.lookup name with
  | some k => k
  | none => 0

/-- The `Notifications._data` dictionary, keyed by (path, interface). -/
structure Notifications where
  data : List ((Nat × Nat) × PropertyMonitor)
  deriving DecidableEq

/-- Dictionary lookup `self._data.get(key)` / `self._data[key]`. -/
def assocFind : List ((Nat × Nat) × PropertyMonitor) → Nat × Nat → Option PropertyMonitor
  | [], _ => none
  | (k, m) :: rest, key => if k = key then some m else assocFind rest key

/-- In-place update of the monitor stored under an existing key (the Python
code mutates the monitor object held in the dictionary). -/
def assocSet : List ((Nat × Nat) × PropertyMonitor) → Nat × Nat → PropertyMonitor →
    List ((Nat × Nat) × PropertyMonitor)
  | [], _, _ => []
  | (k, m) :: rest, key, m' =>
      if k = key then (k, m') :: rest else (k, m) :: assocSet rest key m'

/-- Embedding of `Notifications.start(path, iface, name)`: create the
channel via `bt_property_monitor_start` when absent, then register `name`
on it when not already registered. -/
def Notifications.start (st : Notifications) (path iface name : Nat) : Notifications :=
  let key := (path, iface)
  match assocFind st.data key with
  | none =>
      let m := bt_property_monitor_start
      let m := if m.registered.contains name then m
               else { m with registered := name :: m.registered }
      { data := (key, m) :: st.data }
  | some m =>
      let m := if m.registered.contains name then m
               else { m with registered := name :: m.registered }
      { data := assocSet st.data key m }

/-- Embedding of `Notifications.stop(path, iface)`: `self._data[key]`
raises `KeyError` when the key is absent; otherwise the native monitor's
`stop()` is called.  The dictionary entry is not removed. -/
def Notifications.stop (st : Notifications) (path iface : Nat) :
    Except PyExc Notifications :=
  let key := (path, iface)
  match assocFind st.data key with
  | none => Except.error PyExc.keyError
  | some m => Except.ok { data := assocSet st.data key { m with stopped := true } }

/-- Embedding of `Notifications.get(path, iface, name)`: `self._data[key]`
raises `KeyError` when the key is absent; otherwise the call proceeds to
suspend on `data.get(name)` — the returned pair records the monitor and
property name being awaited. -/
def Notifications.get (st : Notifications) (path iface name : Nat) :
    Except PyExc (PropertyMonitor × Nat) :=
  match assocFind st.data (path, iface) with
  | none => Except.error PyExc.keyError
  | some m => Except.ok (m, name)

/-- Embedding of `Notifications.size(path, iface, name)`: `self._data[key]`
raises `KeyError` when the key is absent; otherwise returns the native
monitor's queue length for `name`. -/
def Notifications.size (st : Notifications) (path iface name : Nat) :
    Except PyExc Nat :=
  match assocFind st.data (path, iface) with
  | none => Except.error PyExc.keyError
  | some m => Except.ok (m.size name)

/-- A start/stop operation on the notification multiplexer. -/
inductive NOp
  | start (path iface name : Nat)
  | stop (path iface : Nat)
  deriving DecidableEq

/-- Run a sequence of start/stop operations; a `KeyError` raised by `stop`
aborts the run. -/
def runOps : Notifications → List NOp → Except PyExc Notifications
  | st, [] => Except.ok st
  | st, NOp.start p i n :: rest => runOps (st.start p i n) rest
  | st, NOp.stop p i :: rest =>
      match st.stop p i with
      | Except.error e => Except.error e
      | Except.ok st2 => runOps st2 rest

/-- Does this operation start the channel with the given key? -/
def NOp.startsKey : NOp → Nat × Nat → Bool
  | NOp.start p i _, key => decide ((p, i) = key)
  | NOp.stop _ _, _ => false

/-! ## cm.py: ConnectionManager.connected -/

/-- Outcome of `ConnectionManager.connected(mac)` when it does not raise:
the caller proceeds to await the readiness event of `mac`. -/
inductive CMWait
  | waitOn (mac : Nat)
  deriving DecidableEq

/-- Embedding of `ConnectionManager.connected(mac)`: when `mac` is not a
key of `self._connected` (the managed addresses), `ValueError` is raised
before any await; otherwise the call suspends on the address's readiness
event. -/
def ConnectionManager.connected (managed : List Nat) (mac : Nat) :
    Except PyExc CMWait :=
  if managed.contains mac then Except.ok (CMWait.waitOn mac)
  else Except.error PyExc.valueError

/-! ## cm.py: ConnectionManager._enable and ConnectionManager._restart -/

/-- Outcome of one `await asyncio.gather(...)` enable attempt inside
`ConnectionManager._enable`: all device enables succeeded, the attempt
raised `asyncio.TimeoutError`, or it raised some other exception. -/
inductive Outcome
  | success
  | timeout
  | failure
  deriving DecidableEq

/-- How one call of `ConnectionManager._enable` finishes: `ok` = the
gather succeeded and the loop broke; `raised` = a non-timeout exception
propagated to the caller; `stuck` = the script of attempt outcomes was
exhausted while `_enable` was still retrying timeouts. -/
inductive EnableRes
  | ok
  | raised
  | stuck
  deriving DecidableEq

/-- Embedding of the `while self._process` loop of
`ConnectionManager._enable`: each iteration makes one enable attempt;
`asyncio.TimeoutError` is caught and the loop immediately retries; success
breaks; any other exception propagates.  Returns the number of attempts
consumed, the unconsumed tail of the attempt-outcome script, and how the
call finished. -/
def enableLoop : List Outcome → Nat × List Outcome × EnableRes
  | [] => (0, [], EnableRes.stuck)
  | Outcome.success :: rest => (1, rest, EnableRes.ok)
  | Outcome.failure :: rest => (1, rest, EnableRes.raised)
  | Outcome.timeout :: rest =>
      match enableLoop rest with
      | (k, r, res) => (k + 1, r, res)

/-- Observable events of `ConnectionManager._restart`: one enable attempt
(one `gather` inside `_enable`), the readiness signal being set or cleared,
and the await of the next `ServicesResolved` change notification. -/
inductive CMEv
  | attempt
  | sigSet
  | sigClear
  | waitResolved
  deriving DecidableEq

/-- Embedding of the `while self._process` loop of
`ConnectionManager._restart`, as its event trace: each iteration calls
`_enable`; when `_enable` raises, the exception is caught and the readiness
signal is cleared; when it returns, the signal is set; either way the loop
then awaits the next `ServicesResolved` change notification.  `iters`
bounds the number of loop iterations run; the trace of a run still inside
`_enable` when the script ends is the attempts made so far. -/
def restartRun : Nat → List Outcome → List CMEv
  | 0, _ => []
  | iters + 1, outs =>
      match enableLoop outs with
      | (k, _, EnableRes.stuck) => List.replicate k CMEv.attempt
      | (k, rest, EnableRes.ok) =>
          List.replicate k CMEv.attempt ++
            CMEv.sigSet :: CMEv.waitResolved :: restartRun iters rest
      | (k, rest, EnableRes.raised) =>
          List.replicate k CMEv.attempt ++
            CMEv.sigClear :: CMEv.waitResolved :: restartRun iters rest

/-- Count the occurrences of an event in a trace. -/
def countEv (e : CMEv) : List CMEv → Nat
  | [] => 0
  | x :: rest => (if x = e then 1 else 0) + countEv e rest

/-- Count the occurrences of an outcome in an attempt script. -/
def countOut (o : Outcome) : List Outcome → Nat
  | [] => 0
  | x :: rest => (if x = o then 1 else 0) + countOut o rest

/-- Is every enable attempt in the trace separated from the previous one by
an awaited `ServicesResolved` change?  This is the pacing the claim
asserts: never two attempts without an intervening resolution event. -/
def attemptsSeparatedAux : Bool → List CMEv → Bool
  | _, [] => true
  | pending, CMEv.attempt :: rest => !pending && attemptsSeparatedAux true rest
  | _, CMEv.waitResolved :: rest => attemptsSeparatedAux false rest
  | pending, _ :: rest => attemptsSeparatedAux pending rest

/-- Entry point of `attemptsSeparatedAux`: no attempt pending initially. -/
def attemptsSeparated (tr : List CMEv) : Bool :=
  attemptsSeparatedAux false tr

/-- Is every readiness-signal update immediately followed by the await of a
`ServicesResolved` change notification? -/
def sigThenWait : List CMEv → Bool
  | [] => true
  | CMEv.sigSet :: CMEv.waitResolved :: rest => sigThenWait (CMEv.waitResolved :: rest)
  | CMEv.sigSet :: _ => false
  | CMEv.sigClear :: CMEv.waitResolved :: rest => sigThenWait (CMEv.waitResolved :: rest)
  | CMEv.sigClear :: _ => false
  | _ :: rest => sigThenWait rest

/-! ## Theorems about serial.py -/

theorem ceilDiv_eq_rat_ceil (a : Int) : ceilDiv a 20 = ⌈(a : ℚ) / 20⌉ := by
  have h20 : (0 : ℚ) < 20 := by norm_num
  have h1 : 20 * ceilDiv a 20 < a + 20 := by unfold ceilDiv; omega
  have h2 : a ≤ 20 * ceilDiv a 20 := by unfold ceilDiv; omega
  have h1q : (20 : ℚ) * ((ceilDiv a 20 : Int) : ℚ) < (a : ℚ) + 20 := by exact_mod_cast h1
  have h2q : (a : ℚ) ≤ 20 * ((ceilDiv a 20 : Int) : ℚ) := by exact_mod_cast h2
  symm
  rw [Int.ceil_eq_iff]
  constructor
  · rw [lt_div_iff₀ h20]
    linarith
  · rw [div_le_iff₀ h20]
    linarith

/-- Claim C5: `credits_for(data, n)` equals `min(255, ⌈(n − len(data)) / 20⌉)`
for every buffer and target, and in particular `credits_for(b"", 100) = 5`,
`credits_for(90 bytes, 100) = 1`, and `credits_for(b"", 10000)` is capped
at 255. -/
theorem credits_for_correct :
    (∀ (data : List Nat) (n : Nat), credits_for data n = credits_for_spec data n) ∧
    credits_for [] 100 = 5 ∧
    credits_for (List.replicate 90 0) 100 = 1 ∧
    credits_for [] 10000 = 255 := by
  refine ⟨fun data n => ?_, by decide, by decide, by decide⟩
  unfold credits_for credits_for_spec
  rw [ceilDiv_eq_rat_ceil]

theorem credits_for_pos (data : List Nat) (n : Nat) (h : data.length < n) :
    1 ≤ credits_for data n := by
  unfold credits_for ceilDiv
  omega

theorem rx_mgr_step_spec (s : SerialState) (data : List Nat) (n : Nat)
    (hlt : data.length < n) (h0 : 0 ≤ s.rx_credits) :
    0 ≤ (rx_credits_mgr_step s data n).rx_credits ∧
    (rx_credits_mgr_step s data n).granted - (rx_credits_mgr_step s data n).rx_credits
      = s.granted - s.rx_credits + 1 := by
  have hc := credits_for_pos data n hlt
  unfold rx_credits_mgr_step rx_credits_mgr_enter add_rx_credits
  split
  · dsimp only
    omega
  · dsimp only
    omega

theorem readLoop_spec (n : Nat) :
    ∀ (frames : List (List Nat)) (data : List Nat) (s : SerialState),
      0 ≤ s.rx_credits →
      (∀ f ∈ frames, f.length ≤ 20) →
      ∀ d s' rest, readLoop n frames data s = ReadResult.ok d s' rest →
        0 ≤ s'.rx_credits ∧
        rest.length ≤ frames.length ∧
        s'.granted - s'.rx_credits =
          s.granted - s.rx_credits + ((frames.length - rest.length : Nat) : Int) ∧
        d.length = n ∧
        d.length ≤ data.length + 20 * (frames.length - rest.length) := by
  intro frames
  induction frames with
  | nil =>
      intro data s h0 _ d s' rest hr
      unfold readLoop at hr
      split at hr
      · simp at hr
      · split at hr
        · simp only [ReadResult.ok.injEq] at hr
          obtain ⟨hd, hs, hrest⟩ := hr
          subst hd; subst hs; subst hrest
          refine ⟨h0, by simp, by simp, by omega, by simp⟩
        · simp at hr
  | cons f fs ih =>
      intro data s h0 hf d s' rest hr
      unfold readLoop at hr
      split at hr
      · have hstep := rx_mgr_step_spec s data n (by assumption) h0
        have hf' : ∀ g ∈ fs, g.length ≤ 20 := fun g hg => hf g (List.mem_cons_of_mem f hg)
        obtain ⟨h1, h2, h3, h4, h5⟩ :=
          ih (data ++ f) (rx_credits_mgr_step s data n) hstep.1 hf' d s' rest hr
        have hfl : f.length ≤ 20 := hf f (List.mem_cons_self f fs)
        refine ⟨h1, by simpa using Nat.le_succ_of_le h2, ?_, h4, ?_⟩
        · have := hstep.2
          simp only [List.length_cons]
          omega
        · simp only [List.length_append] at h5
          simp only [List.length_cons]
          omega
      · split at hr
        · simp only [ReadResult.ok.injEq] at hr
          obtain ⟨hd, hs, hrest⟩ := hr
          subst hd; subst hs; subst hrest
          refine ⟨h0, Nat.le_refl _, by simp, by omega, by simp⟩
        · simp at hr

theorem readLedgers_nonneg (n : Nat) :
    ∀ (frames : List (List Nat)) (data : List Nat) (s : SerialState),
      0 ≤ s.rx_credits →
      ∀ x ∈ readLedgers n frames data s, 0 ≤ x := by
  intro frames
  induction frames with
  | nil =>
      intro data s _ x hx
      simp [readLedgers] at hx
  | cons f fs ih =>
      intro data s h0 x hx
      unfold readLedgers at hx
      split at hx
      · have hstep := rx_mgr_step_spec s data n (by assumption) h0
        rcases List.mem_cons.mp hx with h | h
        · exact h ▸ hstep.1
        · exact ih (data ++ f) (rx_credits_mgr_step s data n) hstep.1 x h
      · simp at hx

/-- Claim C1: during `Serial.read(n)` the inbound-credit ledger never goes
negative — a grant (of at least 1) is issued before any wait that would
otherwise drive it below 0 (`rx_credits_mgr_enter`), and the ledger drops
by exactly 1 per received frame (the accounting equation below); moreover,
assuming the protocol's ≤ 20-byte link frames and a state in which the
cumulative grants dominate the current ledger (true from `connect` on),
the cumulative credits granted when `read(n)` completes are at least
`⌈n / 20⌉`. -/
theorem serial_read_credit_invariant
    (n : Nat) (frames : List (List Nat)) (s : SerialState)
    (h0 : 0 ≤ s.rx_credits) (hg : s.rx_credits ≤ s.granted)
    (hf : ∀ f ∈ frames, f.length ≤ 20)
    (d : List Nat) (s' : SerialState) (rest : List (List Nat))
    (hr : Serial.read n frames s = ReadResult.ok d s' rest) :
    (∀ x ∈ readLedgers n frames [] s, 0 ≤ x) ∧
    0 ≤ s'.rx_credits ∧
    s'.granted - s'.rx_credits =
      s.granted - s.rx_credits + ((frames.length - rest.length : Nat) : Int) ∧
    ceilDiv n 20 ≤ s'.granted := by
  obtain ⟨h1, h2, h3, h4, h5⟩ := readLoop_spec n frames [] s h0 hf d s' rest hr
  refine ⟨readLedgers_nonneg n frames [] s h0, h1, h3, ?_⟩
  simp only [List.length_nil, Nat.zero_add] at h5
  unfold ceilDiv
  omega

/-- Witness for `serial_read_credit_invariant`: reading 40 bytes from two
20-byte frames starting with 1 granted credit outstanding. -/
theorem serial_read_credit_invariant_witness :
    (∀ x ∈ readLedgers 40 [List.replicate 20 1, List.replicate 20 2] []
        { rx_credits := 1, granted := 1 }, 0 ≤ x) ∧
    (0 : Int) ≤ (0 : Int) ∧
    (2 : Int) - (0 : Int) =
      (1 : Int) - (1 : Int) + (((2 : Nat) - ([] : List (List Nat)).length : Nat) : Int) ∧
    ceilDiv 40 20 ≤ (2 : Int) :=
  serial_read_credit_invariant 40 [List.replicate 20 1, List.replicate 20 2]
    { rx_credits := 1, granted := 1 } (by decide) (by decide) (by decide)
    (List.replicate 20 1 ++ List.replicate 20 2) { rx_credits := 0, granted := 2 } []
    (by decide)

/-- Claim C6 (code bug): with `n = 5` and a single 20-byte inbound frame,
`Serial.read` accumulates the whole frame, the loop exits with 20 bytes,
and the function's own `assert len(data) == n` fails — the call does not
return exactly `n` bytes. -/
theorem serial_read_overshoot :
    Serial.read 5 [List.replicate 20 0] { rx_credits := 32, granted := 32 } =
      ReadResult.assertFail (List.replicate 20 0) { rx_credits := 31, granted := 32 } := by
  decide

/-! ## Theorems about bus.py -/

/-- Claim C3 (code bug): in every execution of the connect-and-resolve
sequence, the synchronous `ServicesResolved` read happens first — the
change monitor is registered only afterwards (when the property was false)
or never (when it was already true), because creating the `_dev_property`
coroutine does not run its body.  The registration therefore never precedes
the check, contrary to the race-avoidance ordering the spec requires. -/
theorem connect_and_resolve_check_first :
    (∀ r : Bool, monitorStartBeforeRead (Bus._connect_and_resolve r) = false) ∧
    Bus._connect_and_resolve false =
      [BusEv.btConnectCall, BusEv.propertyBoolRead, BusEv.monitorStart,
       BusEv.monitorGet, BusEv.monitorStop] ∧
    BusEv.monitorStart ∉ Bus._connect_and_resolve true := by
  decide

/-- Claim C4 (counterexample): a connect failure that is not of the
"already connected" class is swallowed by `Bus._connect` whenever the
`Connected` property reads true — it does not propagate to the caller at
all, let alone as a ConnectionError. -/
theorem bus_connect_swallows_other_error :
    (Bus._connect (some (ConnectErr.other 0)) true).2 = Except.ok () := by
  rfl

/-- Claim C4 (amended): `Bus._connect` re-queries the `Connected` property
on every failure, of any class; when the property reads true the failure is
swallowed and the call succeeds, and when it reads false the original
exception is re-raised unchanged (no ConnectionError wrapping). -/
theorem bus_connect_amended (e : ConnectErr) (cp : Bool) :
    (Bus._connect none cp).2 = Except.ok () ∧
    (Bus._connect (some e) cp).2 = (if cp then Except.ok () else Except.error e) ∧
    ConnEv.readConnected ∈ (Bus._connect (some e) cp).1 := by
  cases cp <;> simp [Bus._connect]

/-- Claim C10: `Notifications.get` and `Notifications.size` on a
(path, interface) whose channel was never started raise `KeyError`
immediately — no suspension, no default, no implicit channel creation. -/
theorem notifications_get_size_missing_key
    (st : Notifications) (p i name : Nat)
    (h : assocFind st.data (p, i) = none) :
    Notifications.get st p i name = Except.error PyExc.keyError ∧
    Notifications.size st p i name = Except.error PyExc.keyError := by
  unfold Notifications.get Notifications.size
  rw [h]
  exact ⟨rfl, rfl⟩

/-- Witness for `notifications_get_size_missing_key`: the empty table. -/
theorem notifications_get_size_missing_key_witness :
    Notifications.get { data := [] } 1 2 3 = Except.error PyExc.keyError ∧
    Notifications.size { data := [] } 1 2 3 = Except.error PyExc.keyError :=
  notifications_get_size_missing_key { data := [] } 1 2 3 rfl

/-- Claim C9 (counterexample): calling `stop` for a (path, interface) that
has zero registered properties — here one on which `start` was never
called — raises `KeyError` instead of being a no-op. -/
theorem assocFind_assocSet_self (l : List ((Nat × Nat) × PropertyMonitor))
    (key : Nat × Nat) (m m' : PropertyMonitor) (h : assocFind l key = some m) :
    assocFind (assocSet l key m') key = some m' := by
  induction l with
  | nil => simp [assocFind] at h
  | cons x rest ih =>
      obtain ⟨k, mm⟩ := x
      by_cases hk : k = key
      · subst hk
        simp [assocFind, assocSet]
      · simp only [assocFind, assocSet, if_neg hk] at h ⊢
        exact ih h

theorem notifications_start_mem (st : Notifications) (p i name : Nat) :
    ∃ m, assocFind (Notifications.start st p i name).data (p, i) = some m := by
  unfold Notifications.start
  cases h : assocFind st.data (p, i) with
  | none =>
      simp only [h]
      refine ⟨{ registered := [name], pending := [], stopped := false }, ?_⟩
      simp [assocFind, bt_property_monitor_start]
  | some m =>
      simp only [h]
      exact ⟨_, assocFind_assocSet_self st.data (p, i) m _ h⟩

theorem notifications_stop_fresh_raises :
    Notifications.stop { data := [] } 1 2 = Except.error PyExc.keyError := by
  rfl

/-- Claim C9 (amended): `stop` on a never-started (path, interface) raises
`KeyError`; on a started channel `stop` succeeds and, because the entry is
never removed from the table, calling it twice in a row succeeds both
times. -/
theorem notifications_stop_amended :
    (∀ p i : Nat, Notifications.stop { data := [] } p i = Except.error PyExc.keyError) ∧
    (∀ (st : Notifications) (p i name : Nat), ∃ t2 t3 : Notifications,
      Notifications.stop (Notifications.start st p i name) p i = Except.ok t2 ∧
      Notifications.stop t2 p i = Except.ok t3) := by
  constructor
  · intro p i
    rfl
  · intro st p i name
    obtain ⟨m1, hm1⟩ := notifications_start_mem st p i name
    have h2 := assocFind_assocSet_self (Notifications.start st p i name).data (p, i)
      m1 { m1 with stopped := true } hm1
    refine ⟨{ data := assocSet (Notifications.start st p i name).data (p, i)
                { m1 with stopped := true } },
            { data := assocSet (assocSet (Notifications.start st p i name).data (p, i)
                { m1 with stopped := true }) (p, i)
                { { m1 with stopped := true } with stopped := true } }, ?_, ?_⟩
    · unfold Notifications.stop
      simp only [hm1]
    · unfold Notifications.stop
      simp only [h2]

theorem assocFind_assocSet_isSome (l : List ((Nat × Nat) × PropertyMonitor))
    (key k : Nat × Nat) (m' : PropertyMonitor) :
    (assocFind (assocSet l key m') k).isSome = (assocFind l k).isSome := by
  induction l with
  | nil => rfl
  | cons x rest ih =>
      obtain ⟨kx, mx⟩ := x
      by_cases hx : kx = key
      · subst hx
        by_cases hk : kx = k <;> simp [assocFind, assocSet, hk]
      · by_cases hk : kx = k
        · subst hk
          simp [assocFind, assocSet, hx]
        · simp [assocFind, assocSet, hx, hk, ih]

theorem notifications_stop_ok_isSome (st st2 : Notifications) (p i : Nat)
    (h : Notifications.stop st p i = Except.ok st2) (k : Nat × Nat) :
    (assocFind st2.data k).isSome = (assocFind st.data k).isSome := by
  unfold Notifications.stop at h
  cases hf : assocFind st.data (p, i) with
  | none =>
      simp only [hf] at h
      simp at h
  | some m =>
      simp only [hf] at h
      injection h with h'
      subst h'
      exact assocFind_assocSet_isSome st.data (p, i) k { m with stopped := true }

theorem notifications_start_isSome (st : Notifications) (p i name : Nat) (k : Nat × Nat) :
    (assocFind (Notifications.start st p i name).data k).isSome =
      ((assocFind st.data k).isSome || decide ((p, i) = k)) := by
  unfold Notifications.start
  cases hf : assocFind st.data (p, i) with
  | none =>
      simp only [hf]
      by_cases hk : (p, i) = k
      · subst hk
        simp [assocFind, hf]
      · simp [assocFind, hk]
  | some m =>
      simp only [hf]
      have hset := assocFind_assocSet_isSome st.data (p, i) k
      by_cases hk : (p, i) = k
      · subst hk
        simp [hset, hf]
      · simp [hset, hk]

theorem runOps_mem_spec :
    ∀ (ops : List NOp) (st st' : Notifications),
      runOps st ops = Except.ok st' →
      ∀ k : Nat × Nat,
        (assocFind st'.data k).isSome =
          ((assocFind st.data k).isSome || ops.any (fun op => op.startsKey k)) := by
  intro ops
  induction ops with
  | nil =>
      intro st st' h k
      injection h with h'
      subst h'
      simp
  | cons op rest ih =>
      intro st st' h k
      cases op with
      | start p i name =>
          have := ih (st.start p i name) st' h k
          rw [this, notifications_start_isSome st p i name k]
          simp [NOp.startsKey, Bool.or_assoc]
      | stop p i =>
          unfold runOps at h
          cases hstop : Notifications.stop st p i with
          | error e => rw [hstop] at h; exact absurd h (by simp)
          | ok st2 =>
              rw [hstop] at h
              have := ih st2 st' h k
              rw [this, notifications_stop_ok_isSome st st2 p i hstop k]
              simp [NOp.startsKey]

/-- Claim C8 (counterexample): after starting a channel and then stopping
it, the channel entry is still present in the `Notifications._data` table —
`stop` does not remove it. -/
theorem notifications_stop_keeps_entry :
    ∃ st' : Notifications,
      runOps { data := [] } [NOp.start 1 2 3, NOp.stop 1 2] = Except.ok st' ∧
      assocFind st'.data (1, 2) ≠ none := by
  refine ⟨{ data := [((1, 2), { registered := [3], pending := [], stopped := true })] },
    rfl, ?_⟩
  simp [assocFind]

/-- Claim C8 (amended): after any successful sequence of start/stop
operations from an empty table, a channel entry for (path, interface)
exists in the table if and only if `start` was called for that key at least
once; `stop` marks the monitor stopped but never removes the entry, so the
table retains one entry per key ever started. -/
theorem notifications_table_amended (ops : List NOp) (st' : Notifications)
    (h : runOps { data := [] } ops = Except.ok st') (p i : Nat) :
    (assocFind st'.data (p, i)).isSome = ops.any (fun op => op.startsKey (p, i)) := by
  have := runOps_mem_spec ops { data := [] } st' h (p, i)
  simpa [assocFind] using this

/-- Witness for `notifications_table_amended`: a start followed by a stop
of the same channel. -/
theorem notifications_table_amended_witness :
    (assocFind
      ({ data := [((1, 2), { registered := [3], pending := [], stopped := true })] }
        : Notifications).data (1, 2)).isSome =
      ([NOp.start 1 2 3, NOp.stop 1 2].any (fun op => op.startsKey (1, 2))) :=
  notifications_table_amended [NOp.start 1 2 3, NOp.stop 1 2]
    { data := [((1, 2), { registered := [3], pending := [], stopped := true })] } rfl 1 2

/-! ## Theorems about cm.py -/

/-- Claim C7 (counterexample): `connected` on an address never passed to
`add` fails immediately, but the exception raised is `ValueError`, not
`ConfigurationError`. -/
theorem cm_connected_unmanaged_counterexample :
    ConnectionManager.connected [] 0 = Except.error PyExc.valueError ∧
    ConnectionManager.connected [] 0 ≠ Except.error PyExc.configurationError := by
  constructor
  · rfl
  · intro h
    simp [ConnectionManager.connected] at h

/-- Claim C7 (amended): for every address not managed by the connection
manager, `connected` raises `ValueError` immediately — it returns the error
before reaching the await on any readiness signal. -/
theorem cm_connected_unmanaged_amended (managed : List Nat) (mac : Nat)
    (h : managed.contains mac = false) :
    ConnectionManager.connected managed mac = Except.error PyExc.valueError := by
  unfold ConnectionManager.connected
  rw [h]
  simp

/-- Witness for `cm_connected_unmanaged_amended`: no managed addresses. -/
theorem cm_connected_unmanaged_witness :
    ConnectionManager.connected [] 7 = Except.error PyExc.valueError :=
  cm_connected_unmanaged_amended [] 7 rfl

theorem countEv_append (e : CMEv) (l1 l2 : List CMEv) :
    countEv e (l1 ++ l2) = countEv e l1 + countEv e l2 := by
  induction l1 with
  | nil => simp [countEv]
  | cons x rest ih =>
      simp only [List.cons_append, countEv, List.append_eq] at ih ⊢
      omega

theorem countEv_replicate (e x : CMEv) (k : Nat) :
    countEv e (List.replicate k x) = if x = e then k else 0 := by
  induction k with
  | zero => simp [countEv]
  | succ k ih =>
      simp only [List.replicate_succ, countEv, ih]
      split <;> omega

theorem countOut_append (o : Outcome) (l1 l2 : List Outcome) :
    countOut o (l1 ++ l2) = countOut o l1 + countOut o l2 := by
  induction l1 with
  | nil => simp [countOut]
  | cons x rest ih =>
      simp only [List.cons_append, countOut, List.append_eq] at ih ⊢
      omega

theorem sigThenWait_replicate_attempt (k : Nat) (l : List CMEv) :
    sigThenWait (List.replicate k CMEv.attempt ++ l) = sigThenWait l := by
  induction k with
  | zero => simp
  | succ k ih => simp [List.replicate_succ, sigThenWait, ih]

theorem enableLoop_spec (outs : List Outcome) :
    (enableLoop outs).2.1 = outs.drop (enableLoop outs).1 ∧
    countOut Outcome.success (outs.take (enableLoop outs).1) =
      (if (enableLoop outs).2.2 = EnableRes.ok then 1 else 0) ∧
    countOut Outcome.failure (outs.take (enableLoop outs).1) =
      (if (enableLoop outs).2.2 = EnableRes.raised then 1 else 0) := by
  induction outs with
  | nil => simp [enableLoop, countOut]
  | cons o rest ih =>
      cases o with
      | success => simp [enableLoop, countOut]
      | failure => simp [enableLoop, countOut]
      | timeout =>
          obtain ⟨h1, h2, h3⟩ := ih
          cases hE : enableLoop rest with
          | mk k rr =>
            cases rr with
            | mk r res =>
              rw [hE] at h1 h2 h3
              simp only at h1 h2 h3
              simp [enableLoop, hE, List.take_succ_cons, List.drop_succ_cons,
                countOut, h1, h2, h3]

/-- Claim C2 (counterexample): with an attempt script of one timeout
followed by one success, the restart loop makes two enable attempts
back-to-back with no `ServicesResolved` change notification between them —
the timeout is retried continuously inside `_enable` — and the readiness
signal is never cleared despite the timeout failure. -/
theorem restart_timeout_retries_unpaced :
    restartRun 1 [Outcome.timeout, Outcome.success] =
      [CMEv.attempt, CMEv.attempt, CMEv.sigSet, CMEv.waitResolved] ∧
    attemptsSeparated (restartRun 1 [Outcome.timeout, Outcome.success]) = false ∧
    CMEv.sigClear ∉ restartRun 1 [Outcome.timeout, Outcome.success] := by
  refine ⟨rfl, rfl, ?_⟩
  decide


theorem sigThenWait_sigSet_wait (l : List CMEv) :
    sigThenWait (CMEv.sigSet :: CMEv.waitResolved :: l) = sigThenWait l := rfl

theorem sigThenWait_sigClear_wait (l : List CMEv) :
    sigThenWait (CMEv.sigClear :: CMEv.waitResolved :: l) = sigThenWait l := rfl

theorem countEv_block (e sig : CMEv) (k : Nat) (tail : List CMEv) :
    countEv e (List.replicate k CMEv.attempt ++ sig :: CMEv.waitResolved :: tail) =
      (if CMEv.attempt = e then k else 0) +
        ((if sig = e then 1 else 0) +
          ((if CMEv.waitResolved = e then 1 else 0) + countEv e tail)) := by
  rw [countEv_append, countEv_replicate]
  rfl

/-- Claim C2 (amended): in every run of the restart loop, each readiness
signal update is immediately followed by the await of a `ServicesResolved`
change notification and there is exactly one such await per signal update;
a successful `_enable` call sets the signal and a non-timeout enable
failure is caught (not raised to the caller) and clears it — one signal
update per consumed success/failure outcome; timeout outcomes consume
enable attempts but produce no signal update and no notification wait:
they are retried immediately inside `_enable` without an intervening
resolution event. -/
theorem cm_restart_amended (iters : Nat) :
    ∀ outs : List Outcome,
      sigThenWait (restartRun iters outs) = true ∧
      countEv CMEv.waitResolved (restartRun iters outs) =
        countEv CMEv.sigSet (restartRun iters outs) +
          countEv CMEv.sigClear (restartRun iters outs) ∧
      countEv CMEv.sigSet (restartRun iters outs) =
        countOut Outcome.success
          (outs.take (countEv CMEv.attempt (restartRun iters outs))) ∧
      countEv CMEv.sigClear (restartRun iters outs) =
        countOut Outcome.failure
          (outs.take (countEv CMEv.attempt (restartRun iters outs))) := by
  induction iters with
  | zero =>
      intro outs
      simp [restartRun, countEv, sigThenWait, countOut]
  | succ iters ih =>
      intro outs
      obtain ⟨e1, e2, e3⟩ := enableLoop_spec outs
      cases hE : enableLoop outs with
      | mk k rr =>
        cases rr with
        | mk rest res =>
          rw [hE] at e1 e2 e3
          simp only at e1 e2 e3
          cases res with
          | stuck =>
              simp at e2 e3
              simp only [restartRun, hE]
              refine ⟨?_, ?_, ?_, ?_⟩
              · have h := sigThenWait_replicate_attempt k ([] : List CMEv)
                simpa using h
              · simp [countEv_replicate]
              · simp [countEv_replicate]
                omega
              · simp [countEv_replicate]
                omega
          | ok =>
              obtain ⟨i1, i2, i3, i4⟩ := ih rest
              simp at e2 e3
              have hS : countOut Outcome.success
                  (outs.take (k + countEv CMEv.attempt (restartRun iters rest))) =
                  1 + countEv CMEv.sigSet (restartRun iters rest) := by
                rw [List.take_add, countOut_append, e2, ← e1, ← i3]
              have hF : countOut Outcome.failure
                  (outs.take (k + countEv CMEv.attempt (restartRun iters rest))) =
                  countEv CMEv.sigClear (restartRun iters rest) := by
                rw [List.take_add, countOut_append, e3, ← e1, ← i4]
                omega
              simp only [restartRun, hE]
              refine ⟨?_, ?_, ?_, ?_⟩
              · rw [sigThenWait_replicate_attempt, sigThenWait_sigSet_wait]
                exact i1
              · simp [countEv_block]
                omega
              · simp [countEv_block]
                omega
              · simp [countEv_block]
                omega
          | raised =>
              obtain ⟨i1, i2, i3, i4⟩ := ih rest
              simp at e2 e3
              have hS : countOut Outcome.success
                  (outs.take (k + countEv CMEv.attempt (restartRun iters rest))) =
                  countEv CMEv.sigSet (restartRun iters rest) := by
                rw [List.take_add, countOut_append, e2, ← e1, ← i3]
                omega
              have hF : countOut Outcome.failure
                  (outs.take (k + countEv CMEv.attempt (restartRun iters rest))) =
                  1 + countEv CMEv.sigClear (restartRun iters rest) := by
                rw [List.take_add, countOut_append, e3, ← e1, ← i4]
              simp only [restartRun, hE]
              refine ⟨?_, ?_, ?_, ?_⟩
              · rw [sigThenWait_replicate_attempt, sigThenWait_sigClear_wait]
                exact i1
              · simp [countEv_block]
                omega
              · simp [countEv_block]
                omega
              · simp [countEv_block]
                omega
